import Mathlib

set_option autoImplicit false

/-! Shallow embedding of the job-orchestration core of the
Multilingual-Video-Processor repository: the job status data model
(pkg/models/response.go), the in-memory TTL-bounded job store
(internal/api/status.go), the token-bucket rate limiter
(internal/api/ratelimit.go), and a sequentialised model of the
fan-out/fan-in pipeline coordinator (processTranslation,
processLanguage and updateJobError in the cloud-function main file).

Conventions: instants of time are natural numbers of nanoseconds
(Go `time.Time`); `time.Duration` values that the code compares with
zero are integers of nanoseconds; Go `map` values are association
lists with set-semantics insertion; Go pointers are modelled, where
aliasing matters, by natural-number references into an explicit heap. -/

/-- Go `models.TranslationStatus` (pkg/models/response.go). -/
inductive TranslationStatus where
  | idle
  | processing
  | completed
  | failed
deriving DecidableEq, Repr

/-- A status is terminal when it is `completed` or `failed` (spec glossary). -/
def IsTerminal (s : TranslationStatus) : Prop :=
  s = TranslationStatus.completed ∨ s = TranslationStatus.failed

instance (s : TranslationStatus) : Decidable (IsTerminal s) := by
  unfold IsTerminal; infer_instance

/-- Go `models.LanguageResult` (pkg/models/response.go); field defaults are the
Go zero values used when a struct literal omits a field. -/
structure LanguageResult where
  status : TranslationStatus
  videoURL : String := ""
  translatedText : String := ""
  progress : Int := 0
  error : String := ""
  processedAt : Option Nat := none
deriving DecidableEq, Repr

/-- Go `models.StatusResponse` (pkg/models/response.go): the job record held in
the store. `results` is the Go `map[string]*models.LanguageResult`; a `nil` or
empty map is the empty list. -/
structure StatusResponse where
  jobID : String
  status : TranslationStatus
  results : List (String × LanguageResult)
  createdAt : Option Nat := none
  updatedAt : Nat := 0
deriving DecidableEq, Repr

/-- Lookup in an association list modelling a Go map (first matching key). -/
def assocGet {κ α : Type} [DecidableEq κ] : List (κ × α) → κ → Option α
  | [], _ => none
  | (k, v) :: t, q => if k = q then some v else assocGet t q

/-- Insertion with Go map semantics: replace the entry for the key if present,
otherwise append a new entry. -/
def assocSet {κ α : Type} [DecidableEq κ] : List (κ × α) → κ → α → List (κ × α)
  | [], q, w => [(q, w)]
  | (k, v) :: t, q, w => if k = q then (q, w) :: t else (k, v) :: assocSet t q w

/-- The keys of an association list. -/
def assocKeys {κ α : Type} (l : List (κ × α)) : List κ :=
  l.map Prod.fst

/-- Go `api.StatusNotFoundError` (internal/api/status.go): the only error class
the job store ever returns. -/
structure StatusNotFoundError where
  jobID : String
deriving DecidableEq, Repr

/-- A reference (Go pointer) to a `StatusResponse` on the heap. -/
abbrev StatusRef := Nat

/-- The heap of job records: Go pointers `*models.StatusResponse` are
references into this association list. -/
abbrev StatusHeap := List (StatusRef × StatusResponse)

/-- Go `api.jobEntry` (internal/api/status.go): the store keeps the pointer to
the record (`status *models.StatusResponse`) and the insertion-time stamp. -/
structure JobEntry where
  statusRef : StatusRef
  createdAt : Nat
deriving DecidableEq, Repr

/-- Go `api.InMemoryJobStore` (internal/api/status.go): the map from job id to
entry, and the configured TTL (a Go `time.Duration`, disabled when ≤ 0). -/
structure InMemoryJobStore where
  jobs : List (String × JobEntry)
  jobTTL : Int
deriving DecidableEq, Repr

/-- Whether a job entry has expired at instant `now`:
Go `s.jobTTL > 0 && time.Since(entry.createdAt) > s.jobTTL`. -/
def entryExpired (store : InMemoryJobStore) (entry : JobEntry) (now : Nat) : Bool :=
  decide (store.jobTTL > 0 ∧ ((now : Int) - (entry.createdAt : Int)) > store.jobTTL)

/-- Go `InMemoryJobStore.GetStatus` (internal/api/status.go lines 93-108):
absent or expired entries yield `StatusNotFoundError`; otherwise the stored
pointer `entry.status` — modelled as the stored reference — is returned. -/
def GetStatus (store : InMemoryJobStore) (now : Nat) (jobID : String) :
    Except StatusNotFoundError StatusRef :=
  match assocGet store.jobs jobID with
  | none => .error ⟨jobID⟩
  | some entry =>
      if entryExpired store entry now then .error ⟨jobID⟩
      else .ok entry.statusRef

/-- Go `InMemoryJobStore.UpdateStatusSafely` (internal/api/status.go lines
111-130): on an absent or expired id it returns `StatusNotFoundError` and
leaves the heap untouched; otherwise it applies the updater to the live record
in place and then stamps `UpdatedAt` with the current time. The pair returned
is (error result, resulting heap). -/
def UpdateStatusSafely (store : InMemoryJobStore) (heap : StatusHeap) (now : Nat)
    (jobID : String) (updater : StatusResponse → StatusResponse) :
    Except StatusNotFoundError Unit × StatusHeap :=
  match assocGet store.jobs jobID with
  | none => (.error ⟨jobID⟩, heap)
  | some entry =>
      if entryExpired store entry now then (.error ⟨jobID⟩, heap)
      else
        (.ok (),
         assocSet heap entry.statusRef
           (match assocGet heap entry.statusRef with
            | none => { jobID := jobID, status := .idle, results := [] }
            | some record => { updater record with updatedAt := now }))

/-- Go `api.tokenBucket` (internal/api/ratelimit.go): token count (a Go `int`)
and the last refill instant. -/
structure TokenBucket where
  tokens : Int
  lastRefill : Nat
deriving DecidableEq, Repr

/-- Go `api.RateLimiter` (internal/api/ratelimit.go): the per-identifier bucket
map (`sync.Map`) and the configured capacity in requests per minute. -/
structure RateLimiter where
  requestsPerMinute : Int
  buckets : List (String × TokenBucket)
deriving DecidableEq, Repr

/-- Nanoseconds in a minute, the denominator of the refill computation
`elapsed.Seconds() * (requestsPerMinute / 60.0)` written over exact
nanosecond arithmetic. -/
def nsPerMinute : Int := 60000000000

/-- Go `RateLimiter.Allow` (internal/api/ratelimit.go lines 41-76).  A missing
bucket is created full (`LoadOrStore` with `tokens = requestsPerMinute`,
`lastRefill = now`); the lazy refill adds `floor(elapsedSeconds * rate/60)`
tokens capping the count at the capacity and, when it added anything, moves
`lastRefill` forward; finally one token is consumed when the count is
strictly positive.  Returns (allowed?, limiter after the call). -/
def Allow (rl : RateLimiter) (identifier : String) (now : Nat) :
    Bool × RateLimiter :=
  let bucket :=
    match assocGet rl.buckets identifier with
    | some b => b
    | none => { tokens := rl.requestsPerMinute, lastRefill := now }
  let elapsedNs : Nat := now - bucket.lastRefill
  let tokensToAdd : Int := ((elapsedNs : Int) * rl.requestsPerMinute) / nsPerMinute
  let bucket :=
    if tokensToAdd > 0 then
      { tokens := min (bucket.tokens + tokensToAdd) rl.requestsPerMinute,
        lastRefill := now }
    else bucket
  if bucket.tokens > 0 then
    (true, { rl with buckets := assocSet rl.buckets identifier { bucket with tokens := bucket.tokens - 1 } })
  else
    (false, { rl with buckets := assocSet rl.buckets identifier bucket })

/-- Iterate `Allow` for one identifier at one fixed instant, collecting the
answers in order: a burst of consecutive calls with no elapsed time. -/
def allowBurst (rl : RateLimiter) (identifier : String) (now : Nat) :
    Nat → List Bool × RateLimiter
  | 0 => ([], rl)
  | n + 1 =>
      let step := Allow rl identifier now
      let rest := allowBurst step.2 identifier now n
      (step.1 :: rest.1, rest.2)

/-- Go `models.TranslateRequest` (pkg/models/request.go). -/
structure TranslateRequest where
  videoURL : String
  targetLanguages : List String
  sourceLanguage : String := ""

/-- Go `stt.Transcription` result: the transcribed text and the detected
language tag (possibly empty). -/
structure Transcription where
  text : String
  language : String
deriving DecidableEq, Repr

/-- Go `GCSStorage.GetPublicURL` (internal/storage/gcs.go lines 169-172). -/
def GetPublicURL (bucket path : String) : String :=
  "https://storage.googleapis.com/" ++ bucket ++ "/" ++ path

/-- Environment of one per-language unit of work: the outcome of every leaf
call made by `processLanguage` and what each in-code cancellation check
observes (`some e` means `ctx.Done()` fired and `ctx.Err().Error() = e`).
Leaf errors carry their message; `...CtxErr` fields model the
`if ctx.Err() != nil` test inside each error branch. -/
structure LangEnv where
  cancelBeforeTranslate : Option String := none
  translateRes : Except String String := .ok ""
  translateCtxErr : Option String := none
  cancelBeforeTTS : Option String := none
  audioTempRes : Except String String := .ok ""
  ttsRes : Option String := none
  ttsCtxErr : Option String := none
  cancelBeforeSync : Option String := none
  videoTempRes : Except String String := .ok ""
  syncRes : Option String := none
  syncCtxErr : Option String := none
  uploadRes : Option String := none
  finishTime : Nat := 0

/-- Go `processLanguage` (cloud-function main file lines 587-715), as a pure
function of its leaf-call environment: mirrors the straight-line sequence of
cancellation checks and fallible calls, returning the `LanguageResult` the
goroutine hands to its store write. -/
def processLanguage (env : LangEnv) (jobID : String) (_originalText : String)
    (_sourceLanguage : String) (targetLanguage : String) (_videoPath : String)
    (_videoDuration : Int) (outputBucket : String) : LanguageResult :=
  let result : LanguageResult := { status := .processing, progress := 0 }
  match env.cancelBeforeTranslate with
  | some e => { result with status := .failed, error := "processing cancelled: " ++ e, progress := 0 }
  | none =>
  let result := { result with progress := 20 }
  match env.translateRes with
  | .error err =>
      (match env.translateCtxErr with
       | some ce => { result with status := .failed, error := "translation cancelled: " ++ ce, progress := 0 }
       | none => { result with status := .failed, error := "translation failed: " ++ err, progress := 0 })
  | .ok translatedText =>
  let result := { result with progress := 40 }
  match env.cancelBeforeTTS with
  | some e => { result with status := .failed, error := "processing cancelled: " ++ e, progress := 0 }
  | none =>
  match env.audioTempRes with
  | .error err => { result with status := .failed, error := "failed to create temp file: " ++ err, progress := 0 }
  | .ok _audioPath =>
  match env.ttsRes with
  | some err =>
      (match env.ttsCtxErr with
       | some ce => { result with status := .failed, error := "TTS generation cancelled: " ++ ce, progress := 0 }
       | none => { result with status := .failed, error := "TTS generation failed: " ++ err, progress := 0 })
  | none =>
  let result := { result with progress := 60 }
  match env.cancelBeforeSync with
  | some e => { result with status := .failed, error := "processing cancelled: " ++ e, progress := 0 }
  | none =>
  match env.videoTempRes with
  | .error err => { result with status := .failed, error := "failed to create temp file: " ++ err, progress := 0 }
  | .ok _outputVideoPath =>
  match env.syncRes with
  | some err =>
      (match env.syncCtxErr with
       | some ce => { result with status := .failed, error := "audio sync cancelled: " ++ ce, progress := 0 }
       | none => { result with status := .failed, error := "audio sync failed: " ++ err, progress := 0 })
  | none =>
  let result := { result with progress := 80 }
  match env.uploadRes with
  | some err => { result with status := .failed, error := "upload failed: " ++ err, progress := 0 }
  | none =>
  { result with
    progress := 100,
    status := .completed,
    videoURL := GetPublicURL outputBucket ("translations/" ++ jobID ++ "/" ++ targetLanguage ++ ".mp4"),
    translatedText := translatedText,
    processedAt := some env.finishTime }

/-- The mutator `updateJobError` passes to `UpdateStatusSafely` (cloud-function
main file lines 717-730): force the overall status to `failed`, stamp the
update time, and when the result map is empty insert the single synthetic
"error" entry carrying the message. -/
def updateJobErrorMutator (errorMsg : String) (now : Nat) (s : StatusResponse) :
    StatusResponse :=
  let s := { s with status := .failed, updatedAt := now }
  if s.results.length = 0 then
    { s with results := [("error", { status := .failed, error := errorMsg })] }
  else s

/-- The per-language result-write mutator (cloud-function main file lines
502-508): store this language's result and stamp the update time. -/
def resultWriteMutator (lang : String) (result : LanguageResult) (now : Nat)
    (s : StatusResponse) : StatusResponse :=
  { s with results := assocSet s.results lang result, updatedAt := now }

/-- The cancellation-marking mutator (cloud-function main file lines 476-485):
record a `failed` result with cause "processing cancelled" for one language and
stamp the update time. -/
def cancelMarkMutator (lang : String) (now : Nat) (s : StatusResponse) :
    StatusResponse :=
  { s with
    results := assocSet s.results lang { status := .failed, error := "processing cancelled" },
    updatedAt := now }

/-- The final aggregation mutator (cloud-function main file lines 546-566):
one pass over the result map computes `allCompleted` and `anyFailed`
exactly as the Go loop does; `completed` wins when everything completed,
otherwise `failed` when anything failed, otherwise the status is left alone;
the update time is always stamped.  `aggregateStep` is the body of that Go
loop, one result at a time over the (allCompleted, anyFailed) accumulator. -/
def aggregateStep (acc : Bool × Bool) (p : String × LanguageResult) : Bool × Bool :=
  if p.2.status ≠ TranslationStatus.completed then
    (false, if p.2.status = TranslationStatus.failed then true else acc.2)
  else acc

/-- The final aggregation mutator itself: fold the loop body over the result
map starting from (true, false), then pick the aggregate status. -/
def aggregateMutator (now : Nat) (s : StatusResponse) : StatusResponse :=
  let flags := s.results.foldl aggregateStep (true, false)
  let s :=
    if flags.1 then { s with status := .completed }
    else if flags.2 then { s with status := .failed }
    else s
  { s with updatedAt := now }

/-- Environment of one `processTranslation` run: what every shared
preprocessing leaf call returns, what each cancellation check observes, at
which fan-out loop index (if any) the pre-spawn cancellation check fires, the
per-language environments, and whether the post-fan-in cancellation check
fires. -/
structure ProcEnv where
  cancel0 : Option String := none
  parseRes : Except String (String × String) := .ok ("", "")
  downloadRes : Except String String := .ok ""
  downloadCtxErr : Option String := none
  cancel1 : Option String := none
  durationRes : Except String Int := .ok 0
  durationCtxErr : Option String := none
  extractRes : Except String String := .ok ""
  extractCtxErr : Option String := none
  cancel2 : Option String := none
  transcribeRes : Except String Transcription := .ok ⟨"", ""⟩
  transcribeCtxErr : Option String := none
  cancel3 : Option String := none
  cancelAtLoop : Option (Nat × String) := none
  langEnv : Nat → LangEnv := fun _ => {}
  cancelAfterWait : Option String := none

/-- What shared preprocessing hands to the fan-out when it succeeds. -/
structure PreprocessOk where
  videoPath : String
  videoDuration : Int
  originalText : String
  sourceLanguage : String
deriving DecidableEq, Repr

/-- The shared preprocessing stage of `processTranslation` (cloud-function
main file lines 350-462): the straight-line sequence of cancellation checks
and fallible calls up to and including the check just before the fan-out, each
early `return` carrying the message handed to `updateJobError`.  The duration
bound message elides Go's `%.2f` float formatting. -/
def preprocess (env : ProcEnv) (req : TranslateRequest) (maxVideoDuration : Int) :
    Except String PreprocessOk :=
  match env.cancel0 with
  | some e => .error ("processing cancelled: " ++ e)
  | none =>
  match env.parseRes with
  | .error e => .error ("failed to parse video URL: " ++ e)
  | .ok _bucketPath =>
  match env.downloadRes with
  | .error e =>
      (match env.downloadCtxErr with
       | some ce => .error ("processing cancelled during download: " ++ ce)
       | none => .error ("failed to download video: " ++ e))
  | .ok videoPath =>
  match env.cancel1 with
  | some e => .error ("processing cancelled: " ++ e)
  | none =>
  match env.durationRes with
  | .error e =>
      (match env.durationCtxErr with
       | some ce => .error ("processing cancelled during duration check: " ++ ce)
       | none => .error ("failed to get video duration: " ++ e))
  | .ok videoDuration =>
  if videoDuration > maxVideoDuration then
    .error ("video duration exceeds maximum: " ++ toString videoDuration ++ "s > " ++ toString maxVideoDuration ++ "s")
  else
  match env.extractRes with
  | .error e =>
      (match env.extractCtxErr with
       | some ce => .error ("processing cancelled during audio extraction: " ++ ce)
       | none => .error ("failed to extract audio: " ++ e))
  | .ok _audioPath =>
  match env.cancel2 with
  | some e => .error ("processing cancelled: " ++ e)
  | none =>
  match env.transcribeRes with
  | .error e =>
      (match env.transcribeCtxErr with
       | some ce => .error ("transcription cancelled: " ++ ce)
       | none => .error ("failed to transcribe audio: " ++ e))
  | .ok transcription =>
  let originalText := transcription.text
  let sourceLanguage :=
    if transcription.language = "" then
      (if req.sourceLanguage = "" then "auto" else req.sourceLanguage)
    else transcription.language
  if originalText = "" then .error "transcription returned empty text"
  else
  match env.cancel3 with
  | some e => .error ("processing cancelled: " ++ e)
  | none =>
      .ok { videoPath := videoPath, videoDuration := videoDuration,
            originalText := originalText, sourceLanguage := sourceLanguage }

/-- The body of the cancellation branch inside the fan-out loop (cloud-function
main file lines 474-487): walk all requested target languages and mark each one
with no entry yet as `failed` with cause "processing cancelled". -/
def markCancelled : List String → Nat → StatusResponse → StatusResponse
  | [], _, s => s
  | lang :: rest, now, s =>
      match assocGet s.results lang with
      | some _ => markCancelled rest now s
      | none => markCancelled rest now (cancelMarkMutator lang now s)

/-- The fan-out loop of `processTranslation` (cloud-function main file lines
468-534), sequentialised: each spawned unit runs `processLanguage` to
completion and writes its result before the next loop iteration, which is the
order-insensitive outcome the fan-in waits for.  `i` is the loop index;
the pre-spawn cancellation check at index `i` observes cancellation exactly
when `env.cancelAtLoop = some (k, e)` with `k ≤ i`, in which case the
remaining languages are marked and `updateJobError` runs, ending the run. -/
def fanOutLoop (env : ProcEnv) (req : TranslateRequest) (pre : PreprocessOk)
    (jobID outputBucket : String) (now : Nat) :
    List String → Nat → StatusResponse → StatusResponse
  | [], _, s => s
  | lang :: rest, i, s =>
      match env.cancelAtLoop with
      | some (k, e) =>
          if k ≤ i then
            updateJobErrorMutator ("processing cancelled: " ++ e) now
              (markCancelled req.targetLanguages now s)
          else
            fanOutLoop env req pre jobID outputBucket now rest (i + 1)
              (resultWriteMutator lang
                (processLanguage (env.langEnv i) jobID pre.originalText
                  pre.sourceLanguage lang pre.videoPath pre.videoDuration outputBucket)
                now s)
      | none =>
          fanOutLoop env req pre jobID outputBucket now rest (i + 1)
            (resultWriteMutator lang
              (processLanguage (env.langEnv i) jobID pre.originalText
                pre.sourceLanguage lang pre.videoPath pre.videoDuration outputBucket)
              now s)

/-- Whether the pre-spawn cancellation check fires during the loop over the
request's target languages, ending the run early. -/
def loopCancelled (env : ProcEnv) (req : TranslateRequest) : Bool :=
  match env.cancelAtLoop with
  | some (k, _) => decide (k < req.targetLanguages.length)
  | none => false

/-- Go `processTranslation` (cloud-function main file lines 332-585) acting on
the job's record, sequentialised: shared preprocessing either fails (each early
return calls `updateJobError` with its message) or succeeds and hands off to
the fan-out loop; after the fan-in wait, a final cancellation check either
fails the job via `updateJobError` or the aggregation mutator runs.  Every
store write in the source goes through `UpdateStatusSafely` on this job's
record; the model assumes those lookups succeed (the job is present and
unexpired for the duration of the run) and composes the mutators on the
record directly. -/
def processTranslation (env : ProcEnv) (req : TranslateRequest) (jobID : String)
    (maxVideoDuration : Int) (outputBucket : String) (now : Nat)
    (s0 : StatusResponse) : StatusResponse :=
  match preprocess env req maxVideoDuration with
  | .error msg => updateJobErrorMutator msg now s0
  | .ok pre =>
      let s := fanOutLoop env req pre jobID outputBucket now req.targetLanguages 0 s0
      if loopCancelled env req then s
      else
        match env.cancelAfterWait with
        | some e => updateJobErrorMutator ("processing cancelled: " ++ e) now s
        | none => aggregateMutator now s

/-- The token-bucket range invariant (spec §3): the count stays within
[0, capacity]. -/
def BucketInv (capacity : Int) (b : TokenBucket) : Prop :=
  0 ≤ b.tokens ∧ b.tokens ≤ capacity

instance (capacity : Int) (b : TokenBucket) : Decidable (BucketInv capacity b) := by
  unfold BucketInv; infer_instance

/-- Run a sequence of `Allow` calls, each an (identifier, instant) pair, left
to right, yielding the final limiter state. -/
def allowSeq (rl : RateLimiter) : List (String × Nat) → RateLimiter
  | [] => rl
  | c :: rest => allowSeq (Allow rl c.1 c.2).2 rest

/-- The result the cancellation branch writes for a language whose processing
had not begun when the pre-spawn check fired (cloud-function main file lines
480-483). -/
def cancelEntry : LanguageResult :=
  { status := .failed, error := "processing cancelled" }

/-! ## Association-list lemmas shared by the proofs -/

theorem assocGet_assocSet_self {κ α : Type} [DecidableEq κ] (l : List (κ × α)) (k : κ) (v : α) :
    assocGet (assocSet l k v) k = some v := by
  induction l with
  | nil => simp [assocGet, assocSet]
  | cons hd t ih =>
      obtain ⟨k2, v2⟩ := hd
      by_cases hk : k2 = k <;> simp [assocGet, assocSet, hk, ih]

theorem assocGet_assocSet_ne {κ α : Type} [DecidableEq κ] (l : List (κ × α)) (k q : κ) (v : α)
    (h : k ≠ q) : assocGet (assocSet l k v) q = assocGet l q := by
  induction l with
  | nil => simp [assocGet, assocSet, h]
  | cons hd t ih =>
      obtain ⟨k2, v2⟩ := hd
      by_cases hk : k2 = k
      · subst hk; simp [assocGet, assocSet, h]
      · simp [assocGet, assocSet, hk, ih]

theorem assocGet_mem {κ α : Type} [DecidableEq κ] (l : List (κ × α)) (q : κ) (v : α)
    (h : assocGet l q = some v) : (q, v) ∈ l := by
  induction l with
  | nil => simp [assocGet] at h
  | cons hd t ih =>
      obtain ⟨k2, v2⟩ := hd
      by_cases hk : k2 = q
      · subst hk
        simp [assocGet] at h
        simp [h]
      · simp [assocGet, hk] at h
        exact List.mem_cons_of_mem _ (ih h)

theorem mem_assocSet {κ α : Type} [DecidableEq κ] (l : List (κ × α)) (k : κ) (v : α)
    (p : κ × α) (h : p ∈ assocSet l k v) : p = (k, v) ∨ p ∈ l := by
  induction l with
  | nil => simpa [assocSet] using h
  | cons hd t ih =>
      obtain ⟨k2, v2⟩ := hd
      by_cases hk : k2 = k
      · simp [assocSet, hk] at h
        rcases h with h | h
        · left; simp [h]
        · right; exact List.mem_cons_of_mem _ h
      · simp [assocSet, hk] at h
        rcases h with h | h
        · right; simp [h]
        · rcases ih h with h2 | h2
          · left; exact h2
          · right; exact List.mem_cons_of_mem _ h2

theorem mem_assocKeys_assocSet {κ α : Type} [DecidableEq κ] (l : List (κ × α)) (k q : κ) (v : α) :
    q ∈ assocKeys (assocSet l k v) ↔ q = k ∨ q ∈ assocKeys l := by
  induction l with
  | nil => simp [assocSet, assocKeys]
  | cons hd t ih =>
      obtain ⟨k2, v2⟩ := hd
      by_cases hk : k2 = k
      · subst hk; simp [assocSet, assocKeys]
      · simp only [assocSet, assocKeys, if_neg hk, List.map_cons, List.mem_cons] at *
        constructor
        · rintro (h | h)
          · right; left; exact h
          · rcases ih.1 h with h2 | h2
            · left; exact h2
            · right; right; exact h2
        · rintro (h | h | h)
          · right; exact ih.2 (Or.inl h)
          · left; exact h
          · right; exact ih.2 (Or.inr h)

theorem assocGet_isSome_iff_mem_keys {κ α : Type} [DecidableEq κ] (l : List (κ × α)) (q : κ) :
    (assocGet l q).isSome ↔ q ∈ assocKeys l := by
  induction l with
  | nil => simp [assocGet, assocKeys]
  | cons hd t ih =>
      obtain ⟨k2, v2⟩ := hd
      by_cases hk : k2 = q
      · subst hk; simp [assocGet, assocKeys]
      · simp [assocGet, assocKeys, hk, Ne.symm hk] at *
        exact ih

theorem assocGet_eq_none_iff {κ α : Type} [DecidableEq κ] (l : List (κ × α)) (q : κ) :
    assocGet l q = none ↔ q ∉ assocKeys l := by
  rw [← assocGet_isSome_iff_mem_keys]
  cases assocGet l q <;> simp

theorem nodup_assocKeys_assocSet {κ α : Type} [DecidableEq κ] (l : List (κ × α)) (k : κ) (v : α)
    (h : (assocKeys l).Nodup) : (assocKeys (assocSet l k v)).Nodup := by
  induction l with
  | nil => simp [assocSet, assocKeys]
  | cons hd t ih =>
      obtain ⟨k2, v2⟩ := hd
      simp only [assocKeys, List.map_cons, List.nodup_cons] at h
      by_cases hk : k2 = k
      · subst hk
        simpa [assocSet, assocKeys] using h
      · simp only [assocSet, if_neg hk, assocKeys, List.map_cons, List.nodup_cons]
        refine ⟨?_, ih h.2⟩
        intro hmem
        rcases (mem_assocKeys_assocSet t k k2 v).1 hmem with h2 | h2
        · exact hk h2
        · exact h.1 h2

/-! ## Job store: GetStatus and UpdateStatusSafely -/

/-- C5: `GetStatus` returns `StatusNotFoundError` exactly when the job id is
absent from the store or the entry's age exceeds the TTL with TTL > 0; in
every other case it returns the stored record (the stored reference), and
every error it ever returns is the `StatusNotFoundError` for that id — no
other error class exists on this path. -/
theorem getStatus_notFound_iff (store : InMemoryJobStore) (now : Nat) (jobID : String) :
    ((∃ e, GetStatus store now jobID = .error e) ↔
      (assocGet store.jobs jobID = none ∨
        ∃ entry, assocGet store.jobs jobID = some entry ∧
          store.jobTTL > 0 ∧ ((now : Int) - (entry.createdAt : Int)) > store.jobTTL)) ∧
    (∀ entry, assocGet store.jobs jobID = some entry →
      ¬(store.jobTTL > 0 ∧ ((now : Int) - (entry.createdAt : Int)) > store.jobTTL) →
      GetStatus store now jobID = .ok entry.statusRef) ∧
    (∀ e, GetStatus store now jobID = .error e → e = ⟨jobID⟩) := by
  refine ⟨?_, ?_, ?_⟩
  · constructor
    · rintro ⟨e, he⟩
      unfold GetStatus at he
      cases hget : assocGet store.jobs jobID with
      | none => left; rfl
      | some entry =>
          rw [hget] at he
          by_cases hexp : entryExpired store entry now = true
          · right
            refine ⟨entry, rfl, ?_⟩
            simpa [entryExpired] using hexp
          · simp [hexp] at he
    · rintro (habs | ⟨entry, hget, hexp⟩)
      · exact ⟨⟨jobID⟩, by simp [GetStatus, habs]⟩
      · refine ⟨⟨jobID⟩, ?_⟩
        have : entryExpired store entry now = true := by simpa [entryExpired] using hexp
        simp [GetStatus, hget, this]
  · intro entry hget hexp
    have : entryExpired store entry now = false := by
      simpa [entryExpired] using hexp
    simp [GetStatus, hget, this]
  · intro e he
    unfold GetStatus at he
    cases hget : assocGet store.jobs jobID with
    | none => rw [hget] at he; simpa using he.symm
    | some entry =>
        rw [hget] at he
        by_cases hexp : entryExpired store entry now = true
        · simp [hexp] at he; exact he.symm
        · simp [hexp] at he

/-- C5 witness: on a concrete store, a live entry is returned, an expired
entry and a missing id give not-found. -/
theorem getStatus_notFound_iff_witness :
    GetStatus { jobs := [("a", { statusRef := 3, createdAt := 10 })], jobTTL := 50 } 40 "a"
      = .ok 3 ∧
    (∃ e, GetStatus { jobs := [("a", { statusRef := 3, createdAt := 10 })], jobTTL := 50 } 100 "a"
      = .error e) ∧
    (∃ e, GetStatus { jobs := [("a", { statusRef := 3, createdAt := 10 })], jobTTL := 50 } 40 "b"
      = .error e) := by
  refine ⟨?_, ?_, ?_⟩
  · exact (getStatus_notFound_iff { jobs := [("a", { statusRef := 3, createdAt := 10 })], jobTTL := 50 } 40 "a").2.1
      { statusRef := 3, createdAt := 10 } (by decide) (by decide)
  · exact ((getStatus_notFound_iff { jobs := [("a", { statusRef := 3, createdAt := 10 })], jobTTL := 50 } 100 "a").1).2
      (Or.inr ⟨{ statusRef := 3, createdAt := 10 }, by decide, by decide, by decide⟩)
  · exact ((getStatus_notFound_iff { jobs := [("a", { statusRef := 3, createdAt := 10 })], jobTTL := 50 } 40 "b").1).2
      (Or.inl (by decide))

/-- C6: for a present, unexpired job id, `UpdateStatusSafely` reports success
and the stored record becomes the updater's output stamped with the current
time, all other records untouched; for an absent or expired id it returns
`StatusNotFoundError` and the heap is exactly unchanged. -/
theorem updateStatusSafely_spec (store : InMemoryJobStore) (heap : StatusHeap) (now : Nat)
    (jobID : String) (updater : StatusResponse → StatusResponse) :
    (∀ entry, assocGet store.jobs jobID = some entry →
      entryExpired store entry now = false →
      (UpdateStatusSafely store heap now jobID updater).1 = .ok () ∧
      (∀ record, assocGet heap entry.statusRef = some record →
        assocGet (UpdateStatusSafely store heap now jobID updater).2 entry.statusRef
          = some { updater record with updatedAt := now }) ∧
      (∀ r, r ≠ entry.statusRef →
        assocGet (UpdateStatusSafely store heap now jobID updater).2 r = assocGet heap r)) ∧
    (assocGet store.jobs jobID = none →
      UpdateStatusSafely store heap now jobID updater = (.error ⟨jobID⟩, heap)) ∧
    (∀ entry, assocGet store.jobs jobID = some entry →
      entryExpired store entry now = true →
      UpdateStatusSafely store heap now jobID updater = (.error ⟨jobID⟩, heap)) := by
  refine ⟨?_, ?_, ?_⟩
  · intro entry hget hexp
    refine ⟨?_, ?_, ?_⟩
    · simp [UpdateStatusSafely, hget, hexp]
    · intro record hrec
      simp [UpdateStatusSafely, hget, hexp, hrec, assocGet_assocSet_self]
    · intro r hr
      simp only [UpdateStatusSafely, hget, hexp, Bool.false_eq_true, if_false]
      exact assocGet_assocSet_ne heap entry.statusRef r _ (fun h => hr h.symm)
  · intro habs
    simp [UpdateStatusSafely, habs]
  · intro entry hget hexp
    simp [UpdateStatusSafely, hget, hexp]

/-- C6 witness: concrete success and failure cases of `UpdateStatusSafely`. -/
theorem updateStatusSafely_spec_witness :
    (UpdateStatusSafely { jobs := [("a", { statusRef := 0, createdAt := 10 })], jobTTL := 50 }
        [(0, { jobID := "a", status := .processing, results := [] })] 40 "a"
        (fun s => { s with status := .failed })).1 = .ok () ∧
    assocGet (UpdateStatusSafely { jobs := [("a", { statusRef := 0, createdAt := 10 })], jobTTL := 50 }
        [(0, { jobID := "a", status := .processing, results := [] })] 40 "a"
        (fun s => { s with status := .failed })).2 0
      = some { jobID := "a", status := .failed, results := [], updatedAt := 40 } ∧
    UpdateStatusSafely { jobs := [("a", { statusRef := 0, createdAt := 10 })], jobTTL := 50 }
        [(0, { jobID := "a", status := .processing, results := [] })] 100 "a"
        (fun s => { s with status := .failed })
      = (.error ⟨"a"⟩, [(0, { jobID := "a", status := .processing, results := [] })]) := by
  have h := updateStatusSafely_spec
    { jobs := [("a", { statusRef := 0, createdAt := 10 })], jobTTL := 50 }
    [(0, { jobID := "a", status := .processing, results := [] })] 40 "a"
    (fun s => { s with status := .failed })
  have hok := h.1 { statusRef := 0, createdAt := 10 } (by decide) (by decide)
  refine ⟨hok.1, ?_, ?_⟩
  · exact hok.2.1 { jobID := "a", status := .processing, results := [] } (by decide)
  · exact (updateStatusSafely_spec
      { jobs := [("a", { statusRef := 0, createdAt := 10 })], jobTTL := 50 }
      [(0, { jobID := "a", status := .processing, results := [] })] 100 "a"
      (fun s => { s with status := .failed })).2.2
      { statusRef := 0, createdAt := 10 } (by decide) (by decide)

/-- C9 counterexample: `GetStatus` does not return a value snapshot.  On a
concrete store it returns the very reference the store keeps, and a subsequent
`UpdateStatusSafely` mutation is observable by reading through that
previously returned reference — the record read afterwards differs from the
one read before, refuting "subsequent store mutations are not observable
through a previously returned snapshot". -/
theorem getStatus_snapshot_counterexample :
    GetStatus { jobs := [("job1", { statusRef := 0, createdAt := 100 })], jobTTL := 0 } 200 "job1"
      = .ok 0 ∧
    assocGet (UpdateStatusSafely
        { jobs := [("job1", { statusRef := 0, createdAt := 100 })], jobTTL := 0 }
        [(0, { jobID := "job1", status := .processing, results := [],
               createdAt := some 100, updatedAt := 100 })]
        300 "job1" (fun s => { s with status := .failed })).2 0
      ≠ assocGet [(0, { jobID := "job1", status := TranslationStatus.processing, results := [],
                        createdAt := some 100, updatedAt := 100 })] (0 : StatusRef) := by
  constructor
  · rfl
  · decide

/-- C9 amended: `GetStatus` returns a live reference to the stored record, not
a value copy: for any present and unexpired job it returns exactly the
reference held by the store's entry, and a later `UpdateStatusSafely` mutation
is observable by dereferencing that same returned reference, which then holds
the updater's output stamped with the update time. -/
theorem getStatus_live_reference (store : InMemoryJobStore) (heap : StatusHeap)
    (now now2 : Nat) (jobID : String) (entry : JobEntry) (record : StatusResponse)
    (updater : StatusResponse → StatusResponse)
    (hget : assocGet store.jobs jobID = some entry)
    (hlive : entryExpired store entry now = false)
    (hlive2 : entryExpired store entry now2 = false)
    (hrec : assocGet heap entry.statusRef = some record) :
    GetStatus store now jobID = .ok entry.statusRef ∧
    assocGet (UpdateStatusSafely store heap now2 jobID updater).2 entry.statusRef
      = some { updater record with updatedAt := now2 } := by
  constructor
  · simp [GetStatus, hget, hlive]
  · simp [UpdateStatusSafely, hget, hlive2, hrec, assocGet_assocSet_self]

/-- C9 amended witness: the reference returned for a concrete job reads back
the mutated record after an update through the store. -/
theorem getStatus_live_reference_witness :
    GetStatus { jobs := [("job1", { statusRef := 0, createdAt := 100 })], jobTTL := 0 } 200 "job1"
      = .ok (0 : StatusRef) ∧
    assocGet (UpdateStatusSafely
        { jobs := [("job1", { statusRef := 0, createdAt := 100 })], jobTTL := 0 }
        [(0, { jobID := "job1", status := .processing, results := [],
               createdAt := some 100, updatedAt := 100 })]
        300 "job1" (fun s => { s with status := .failed })).2 0
      = some { jobID := "job1", status := .failed, results := [],
               createdAt := some 100, updatedAt := 300 } :=
  getStatus_live_reference
    { jobs := [("job1", { statusRef := 0, createdAt := 100 })], jobTTL := 0 }
    [(0, { jobID := "job1", status := .processing, results := [],
           createdAt := some 100, updatedAt := 100 })]
    200 300 "job1" { statusRef := 0, createdAt := 100 }
    { jobID := "job1", status := .processing, results := [],
      createdAt := some 100, updatedAt := 100 }
    (fun s => { s with status := .failed })
    (by decide) (by decide) (by decide) (by decide)

/-! ## Aggregation (C1) and the terminal-status invariant (C2) -/

theorem foldl_aggregateStep (rs : List (String × LanguageResult)) (a : Bool × Bool) :
    rs.foldl aggregateStep a =
      (a.1 && rs.all (fun p => p.2.status == TranslationStatus.completed),
       a.2 || rs.any (fun p => p.2.status == TranslationStatus.failed)) := by
  induction rs generalizing a with
  | nil => simp
  | cons hd t ih =>
      rw [List.foldl_cons]
      by_cases h1 : hd.2.status = TranslationStatus.completed
      · have h2 : (hd.2.status == TranslationStatus.failed) = false := by
          rw [h1]; decide
        have h3 : (hd.2.status == TranslationStatus.completed) = true := by
          rw [h1]; decide
        have hstep : aggregateStep a hd = a := by simp [aggregateStep, h1]
        rw [hstep, ih, List.all_cons, List.any_cons, h2, h3]
        simp
      · have h3 : (hd.2.status == TranslationStatus.completed) = false :=
          beq_eq_false_iff_ne.2 h1
        by_cases h2 : hd.2.status = TranslationStatus.failed
        · have h4 : (hd.2.status == TranslationStatus.failed) = true := beq_iff_eq.2 h2
          have hstep : aggregateStep a hd = (false, true) := by
            simp [aggregateStep, h1, h2]
          rw [hstep, ih, List.all_cons, List.any_cons, h3, h4]
          simp
        · have h4 : (hd.2.status == TranslationStatus.failed) = false :=
            beq_eq_false_iff_ne.2 h2
          have hstep : aggregateStep a hd = (false, a.2) := by
            simp [aggregateStep, h1, h2]
          rw [hstep, ih, List.all_cons, List.any_cons, h3, h4]
          simp

theorem aggregateMutator_results (now : Nat) (s : StatusResponse) :
    (aggregateMutator now s).results = s.results := by
  simp only [aggregateMutator]
  split
  · rfl
  · split <;> rfl

theorem aggregateMutator_status_cases (now : Nat) (s : StatusResponse) :
    (aggregateMutator now s).status = TranslationStatus.completed ∨
    (aggregateMutator now s).status = TranslationStatus.failed ∨
    (aggregateMutator now s).status = s.status := by
  simp only [aggregateMutator]
  split
  · left; rfl
  · split
    · right; left; rfl
    · right; right; rfl

/-- C1: once every entry of the result map is terminal, the aggregation
mutator sets the overall status to `completed` exactly when every
per-language result is `completed`, and to `failed` whenever at least one
per-language result is `failed`. -/
theorem aggregate_terminal_spec (s : StatusResponse) (now : Nat)
    (hterm : ∀ p ∈ s.results, IsTerminal p.2.status) :
    ((aggregateMutator now s).status = TranslationStatus.completed ↔
      ∀ p ∈ s.results, p.2.status = TranslationStatus.completed) ∧
    ((∃ p ∈ s.results, p.2.status = TranslationStatus.failed) →
      (aggregateMutator now s).status = TranslationStatus.failed) := by
  have hflags := foldl_aggregateStep s.results (true, false)
  by_cases hall : ∀ p ∈ s.results, p.2.status = TranslationStatus.completed
  · have h1 : (s.results.all (fun p => p.2.status == TranslationStatus.completed)) = true := by
      rw [List.all_eq_true]
      intro p hp
      exact beq_iff_eq.2 (hall p hp)
    have hst : (aggregateMutator now s).status = TranslationStatus.completed := by
      have h1f : (s.results.foldl aggregateStep (true, false)).1 = true := by
        rw [hflags]; simpa using h1
      simp [aggregateMutator, h1f]
    constructor
    · exact ⟨fun _ => hall, fun _ => hst⟩
    · rintro ⟨p, hp, hfail⟩
      have hc := hall p hp
      rw [hc] at hfail
      cases hfail
  · have hwit : ∃ p ∈ s.results, p.2.status ≠ TranslationStatus.completed := by
      by_contra hcon
      push_neg at hcon
      exact hall hcon
    have h1 : (s.results.all (fun p => p.2.status == TranslationStatus.completed)) = false := by
      rw [← Bool.not_eq_true, List.all_eq_true]
      intro hforall
      rcases hwit with ⟨p, hmem, hne⟩
      exact hne (beq_iff_eq.1 (hforall p hmem))
    have hfail : ∃ p ∈ s.results, p.2.status = TranslationStatus.failed := by
      rcases hwit with ⟨p, hmem, hne⟩
      rcases hterm p hmem with hc | hf
      · exact absurd hc hne
      · exact ⟨p, hmem, hf⟩
    have h2 : (s.results.any (fun p => p.2.status == TranslationStatus.failed)) = true := by
      rw [List.any_eq_true]
      rcases hfail with ⟨p, hmem, hf⟩
      exact ⟨p, hmem, beq_iff_eq.2 hf⟩
    have hst : (aggregateMutator now s).status = TranslationStatus.failed := by
      have h1f : (s.results.foldl aggregateStep (true, false)).1 = false := by
        rw [hflags]; simpa using h1
      have h2f : (s.results.foldl aggregateStep (true, false)).2 = true := by
        rw [hflags]; simpa using h2
      simp [aggregateMutator, h1f, h2f]
    constructor
    · rw [hst]
      constructor
      · intro h; cases h
      · intro h; exact absurd h hall
    · intro _; exact hst

/-- C1 witness: a map with one completed and one failed entry aggregates to
`failed`; a map with only completed entries aggregates to `completed`. -/
theorem aggregate_terminal_spec_witness :
    (aggregateMutator 9 { jobID := "j", status := .processing,
                          results := [("en", { status := .completed }),
                                      ("ar", { status := .failed })] }).status
      = TranslationStatus.failed ∧
    (aggregateMutator 9 { jobID := "j", status := .processing,
                          results := [("en", { status := .completed })] }).status
      = TranslationStatus.completed := by
  constructor
  · exact (aggregate_terminal_spec
      { jobID := "j", status := .processing,
        results := [("en", { status := .completed }), ("ar", { status := .failed })] } 9
      (by decide)).2 ⟨("ar", { status := .failed }), by decide, rfl⟩
  · exact (aggregate_terminal_spec
      { jobID := "j", status := .processing,
        results := [("en", { status := .completed })] } 9 (by decide)).1.2 (by decide)

/-- C2: a terminal overall status is never written back to `processing` by
any of the program's job-record mutators — the aggregation mutator, the
`updateJobError` mutator, the per-language result write and the
cancellation-marking write (the latter two never touch the overall status at
all) — nor, consequently, by any `UpdateStatusSafely` call running one of
these updaters on the live record. -/
theorem terminal_status_never_processing :
    (∀ (s : StatusResponse) (msg : String) (now : Nat), IsTerminal s.status →
      (updateJobErrorMutator msg now s).status ≠ TranslationStatus.processing) ∧
    (∀ (s : StatusResponse) (now : Nat), IsTerminal s.status →
      (aggregateMutator now s).status ≠ TranslationStatus.processing) ∧
    (∀ (s : StatusResponse) (lang : String) (r : LanguageResult) (now : Nat),
      IsTerminal s.status →
      (resultWriteMutator lang r now s).status ≠ TranslationStatus.processing) ∧
    (∀ (s : StatusResponse) (lang : String) (now : Nat), IsTerminal s.status →
      (cancelMarkMutator lang now s).status ≠ TranslationStatus.processing) ∧
    (∀ (updater : StatusResponse → StatusResponse),
      (∀ s, IsTerminal s.status → (updater s).status ≠ TranslationStatus.processing) →
      ∀ (store : InMemoryJobStore) (heap : StatusHeap) (now : Nat) (jobID : String)
        (ref : StatusRef) (record : StatusResponse),
        assocGet heap ref = some record → IsTerminal record.status →
        ∀ record2, assocGet (UpdateStatusSafely store heap now jobID updater).2 ref
            = some record2 →
          record2.status ≠ TranslationStatus.processing) := by
  have hterm_ne : ∀ t : TranslationStatus, IsTerminal t → t ≠ TranslationStatus.processing := by
    rintro t (h | h) <;> rw [h] <;> intro h2 <;> cases h2
  refine ⟨?_, ?_, ?_, ?_, ?_⟩
  · intro s msg now _
    simp only [updateJobErrorMutator]
    split <;> simp
  · intro s now hterm
    rcases aggregateMutator_status_cases now s with h | h | h <;> rw [h]
    · intro h2; cases h2
    · intro h2; cases h2
    · exact hterm_ne s.status hterm
  · intro s lang r now hterm
    simpa [resultWriteMutator] using hterm_ne s.status hterm
  · intro s lang now hterm
    simpa [cancelMarkMutator] using hterm_ne s.status hterm
  · intro updater hupd store heap now jobID ref record hrec hterm record2 hrec2
    unfold UpdateStatusSafely at hrec2
    cases hget : assocGet store.jobs jobID with
    | none =>
        rw [hget] at hrec2
        simp only at hrec2
        rw [hrec] at hrec2
        injection hrec2 with h
        rw [← h]
        exact hterm_ne record.status hterm
    | some entry =>
        rw [hget] at hrec2
        by_cases hexp : entryExpired store entry now = true
        · simp only [hexp, if_true] at hrec2
          rw [hrec] at hrec2
          injection hrec2 with h
          rw [← h]
          exact hterm_ne record.status hterm
        · rw [Bool.not_eq_true] at hexp
          simp only [hexp, Bool.false_eq_true, if_false] at hrec2
          by_cases href : entry.statusRef = ref
          · subst href
            rw [assocGet_assocSet_self] at hrec2
            rw [hrec] at hrec2
            injection hrec2 with h
            rw [← h]
            exact hupd record hterm
          · rw [assocGet_assocSet_ne heap entry.statusRef ref _ href, hrec] at hrec2
            injection hrec2 with h
            rw [← h]
            exact hterm_ne record.status hterm

/-- C2 witness: each mutator applied to a concrete completed record leaves a
status other than `processing`, also when run through `UpdateStatusSafely`. -/
theorem terminal_status_never_processing_witness :
    (updateJobErrorMutator "boom" 5 { jobID := "j", status := .completed, results := [] }).status
      ≠ TranslationStatus.processing ∧
    (aggregateMutator 5 { jobID := "j", status := .completed, results := [] }).status
      ≠ TranslationStatus.processing ∧
    (resultWriteMutator "en" { status := .completed } 5
        { jobID := "j", status := .failed, results := [] }).status
      ≠ TranslationStatus.processing ∧
    (cancelMarkMutator "en" 5 { jobID := "j", status := .failed, results := [] }).status
      ≠ TranslationStatus.processing := by
  refine ⟨?_, ?_, ?_, ?_⟩
  · exact terminal_status_never_processing.1
      { jobID := "j", status := .completed, results := [] } "boom" 5 (by decide)
  · exact terminal_status_never_processing.2.1
      { jobID := "j", status := .completed, results := [] } 5 (by decide)
  · exact terminal_status_never_processing.2.2.1
      { jobID := "j", status := .failed, results := [] } "en" { status := .completed } 5 (by decide)
  · exact terminal_status_never_processing.2.2.2.1
      { jobID := "j", status := .failed, results := [] } "en" 5 (by decide)

/-! ## Rate limiter (C7, C8) -/

theorem allow_requestsPerMinute (rl : RateLimiter) (identifier : String) (now : Nat) :
    (Allow rl identifier now).2.requestsPerMinute = rl.requestsPerMinute := by
  simp only [Allow]
  split <;> split <;> rfl

theorem allow_same_instant (rl : RateLimiter) (identifier : String) (now : Nat)
    (b : TokenBucket) (hb : assocGet rl.buckets identifier = some b)
    (hlast : b.lastRefill = now) :
    Allow rl identifier now =
      if 0 < b.tokens then
        (true, { rl with buckets := assocSet rl.buckets identifier { b with tokens := b.tokens - 1 } })
      else
        (false, { rl with buckets := assocSet rl.buckets identifier b }) := by
  have hz : ((((now - b.lastRefill : Nat) : Int) * rl.requestsPerMinute) / nsPerMinute) = 0 := by
    rw [hlast, Nat.sub_self]
    simp
  simp only [Allow, hb, hz, gt_iff_lt, lt_self_iff_false, if_false]

theorem allowBurst_depleting (C : Nat) (identifier : String) (now : Nat) :
    ∀ (n t : Nat) (rl : RateLimiter),
      rl.requestsPerMinute = (C : Int) →
      assocGet rl.buckets identifier = some { tokens := (t : Int), lastRefill := now } →
      (allowBurst rl identifier now n).1 =
        List.replicate (min t n) true ++ List.replicate (n - min t n) false := by
  intro n
  induction n with
  | zero =>
      intro t rl _ _
      simp [allowBurst]
  | succ n ih =>
      intro t rl hrpm hb
      have hstep := allow_same_instant rl identifier now
        { tokens := (t : Int), lastRefill := now } hb rfl
      have hgoal : (allowBurst rl identifier now (n + 1)).1
          = (Allow rl identifier now).1
            :: (allowBurst (Allow rl identifier now).2 identifier now n).1 := rfl
      have hrpm2 : (Allow rl identifier now).2.requestsPerMinute = (C : Int) := by
        rw [allow_requestsPerMinute]; exact hrpm
      by_cases htpos : 0 < t
      · have htpos2 : (0 : Int) < ((t : Nat) : Int) := by exact_mod_cast htpos
        rw [if_pos htpos2] at hstep
        have hstep1 : (Allow rl identifier now).1 = true := by rw [hstep]
        have hval : ((t : Nat) : Int) - 1 = ((t - 1 : Nat) : Int) := by omega
        have hb2 : assocGet (Allow rl identifier now).2.buckets identifier
            = some { tokens := ((t - 1 : Nat) : Int), lastRefill := now } := by
          rw [hstep]
          dsimp only
          rw [hval]
          exact assocGet_assocSet_self rl.buckets identifier
            { tokens := ((t - 1 : Nat) : Int), lastRefill := now }
        have ih2 := ih (t - 1) (Allow rl identifier now).2 hrpm2 hb2
        have hmin : min t (n + 1) = min (t - 1) n + 1 := by omega
        have hsub : (n + 1) - min t (n + 1) = n - min (t - 1) n := by omega
        rw [hgoal, ih2, hstep1, hsub, hmin, List.replicate_succ, List.cons_append]
      · have ht0 : t = 0 := by omega
        subst ht0
        have hneg : ¬ (0 : Int)
            < (({ tokens := ((0 : Nat) : Int), lastRefill := now } : TokenBucket)).tokens := by
          simp
        rw [if_neg hneg] at hstep
        have hstep1 : (Allow rl identifier now).1 = false := by rw [hstep]
        have hb2 : assocGet (Allow rl identifier now).2.buckets identifier
            = some { tokens := ((0 : Nat) : Int), lastRefill := now } := by
          rw [hstep]
          exact assocGet_assocSet_self rl.buckets identifier
            { tokens := ((0 : Nat) : Int), lastRefill := now }
        have ih2 := ih 0 (Allow rl identifier now).2 hrpm2 hb2
        rw [hgoal, ih2, hstep1]
        simp [List.replicate_succ]

theorem allow_fresh (rl : RateLimiter) (identifier : String) (now : Nat)
    (hfresh : assocGet rl.buckets identifier = none) :
    Allow rl identifier now =
      if 0 < rl.requestsPerMinute then
        (true, { rl with buckets := assocSet rl.buckets identifier { tokens := rl.requestsPerMinute - 1, lastRefill := now } })
      else
        (false, { rl with buckets := assocSet rl.buckets identifier { tokens := rl.requestsPerMinute, lastRefill := now } }) := by
  by_cases h2 : (0 : Int) < rl.requestsPerMinute
  · simp [Allow, hfresh, h2]
  · simp [Allow, hfresh, h2]

/-- C7: for a fresh identifier and capacity C > 0, the bucket is created full
with C tokens (so the first call consumes down to C-1), a burst of C+1 calls
at one instant allows exactly the first C and rejects the (C+1)-th, and in
general each call refills `floor(elapsedSeconds * C/60)` tokens with the
count capped at the capacity, consuming one token exactly when the
post-refill count is strictly positive. -/
theorem rateLimiter_burst_spec (C : Nat) (rl : RateLimiter) (identifier : String) (now : Nat)
    (hC : 0 < C) (hrpm : rl.requestsPerMinute = (C : Int))
    (hfresh : assocGet rl.buckets identifier = none) :
    (allowBurst rl identifier now (C + 1)).1 = List.replicate C true ++ [false] ∧
    (Allow rl identifier now).1 = true ∧
    assocGet (Allow rl identifier now).2.buckets identifier
      = some { tokens := (C : Int) - 1, lastRefill := now } ∧
    (∀ (rl2 : RateLimiter) (b : TokenBucket) (now2 : Nat),
      assocGet rl2.buckets identifier = some b →
      ∀ add refilled : Int,
        add = (((now2 - b.lastRefill : Nat) : Int) * rl2.requestsPerMinute) / nsPerMinute →
        refilled = (if 0 < add then min (b.tokens + add) rl2.requestsPerMinute
                    else b.tokens) →
        ((Allow rl2 identifier now2).1 = true ↔ 0 < refilled) ∧
        assocGet (Allow rl2 identifier now2).2.buckets identifier
          = some { tokens := if 0 < refilled then refilled - 1 else refilled,
                   lastRefill := if 0 < add then now2 else b.lastRefill }) := by
  have hCpos : (0 : Int) < (C : Int) := by exact_mod_cast hC
  have hstep := allow_fresh rl identifier now hfresh
  rw [hrpm, if_pos hCpos] at hstep
  have hstep1 : (Allow rl identifier now).1 = true := by rw [hstep]
  have hrpm2 : (Allow rl identifier now).2.requestsPerMinute = (C : Int) := by
    rw [allow_requestsPerMinute]; exact hrpm
  have hval : (C : Int) - 1 = ((C - 1 : Nat) : Int) := by omega
  have hb2 : assocGet (Allow rl identifier now).2.buckets identifier
      = some { tokens := ((C - 1 : Nat) : Int), lastRefill := now } := by
    rw [hstep]
    dsimp only
    rw [hval]
    exact assocGet_assocSet_self rl.buckets identifier
      { tokens := ((C - 1 : Nat) : Int), lastRefill := now }
  refine ⟨?_, hstep1, ?_, ?_⟩
  · have hgoal : (allowBurst rl identifier now (C + 1)).1
        = (Allow rl identifier now).1
          :: (allowBurst (Allow rl identifier now).2 identifier now C).1 := rfl
    have haux := allowBurst_depleting C identifier now C (C - 1)
      (Allow rl identifier now).2 hrpm2 hb2
    have hmin : min (C - 1) C = C - 1 := by omega
    have hsub : C - min (C - 1) C = 1 := by omega
    rw [hgoal, hstep1, haux, hsub, hmin]
    have hrep : List.replicate C true = true :: List.replicate (C - 1) true := by
      have hC1 : C = (C - 1) + 1 := by omega
      rw [hC1, List.replicate_succ]
      simp
    rw [hrep, List.cons_append, List.replicate_one]
  · rw [hval]
    exact hb2
  · intro rl2 b now2 hb add refilled hadd href
    subst hadd
    by_cases h1 : (0 : Int)
        < (((now2 - b.lastRefill : Nat) : Int) * rl2.requestsPerMinute) / nsPerMinute
    · rw [if_pos h1] at href
      subst href
      by_cases h2 : (0 : Int)
          < min (b.tokens + (((now2 - b.lastRefill : Nat) : Int) * rl2.requestsPerMinute)
              / nsPerMinute) rl2.requestsPerMinute
      · refine ⟨?_, ?_⟩
        · simp [Allow, hb, h1, h2]
        · simp [Allow, hb, h1, h2, assocGet_assocSet_self]
      · refine ⟨?_, ?_⟩
        · simp [Allow, hb, h1, h2]
        · simp [Allow, hb, h1, h2, assocGet_assocSet_self]
    · rw [if_neg h1] at href
      subst href
      by_cases h2 : (0 : Int) < b.tokens
      · refine ⟨?_, ?_⟩
        · simp [Allow, hb, h1, h2]
        · simp [Allow, hb, h1, h2, assocGet_assocSet_self]
      · refine ⟨?_, ?_⟩
        · simp [Allow, hb, h1, h2]
        · simp [Allow, hb, h1, h2, assocGet_assocSet_self]

/-- C7 witness: capacity 3, four immediate calls on a fresh identifier; the
first three are allowed, the fourth rejected. -/
theorem rateLimiter_burst_spec_witness :
    (allowBurst { requestsPerMinute := 3, buckets := [] } "ip" 0 4).1
      = List.replicate 3 true ++ [false] :=
  (rateLimiter_burst_spec 3 { requestsPerMinute := 3, buckets := [] } "ip" 0
    (by decide) rfl rfl).1

theorem allow_preserves_bucketInv (rl : RateLimiter) (identifier : String) (now : Nat)
    (hC : 0 ≤ rl.requestsPerMinute)
    (hinv : ∀ p ∈ rl.buckets, BucketInv rl.requestsPerMinute p.2) :
    ∀ p ∈ (Allow rl identifier now).2.buckets, BucketInv rl.requestsPerMinute p.2 := by
  intro p hp
  cases hget : assocGet rl.buckets identifier with
  | some b =>
      have hbinv : BucketInv rl.requestsPerMinute b :=
        hinv (identifier, b) (assocGet_mem rl.buckets identifier b hget)
      obtain ⟨hb0, hb1⟩ := hbinv
      by_cases h1 : (0 : Int)
          < (((now - b.lastRefill : Nat) : Int) * rl.requestsPerMinute) / nsPerMinute
      · by_cases h2 : (0 : Int)
            < min (b.tokens + (((now - b.lastRefill : Nat) : Int) * rl.requestsPerMinute)
                / nsPerMinute) rl.requestsPerMinute
        · simp only [Allow, hget, gt_iff_lt, h1, if_true, h2] at hp
          rcases mem_assocSet _ _ _ p hp with hpe | hpm
          · rw [hpe]
            refine ⟨?_, ?_⟩ <;> simp <;> omega
          · exact hinv p hpm
        · simp only [Allow, hget, gt_iff_lt, h1, if_true, h2, if_false] at hp
          rcases mem_assocSet _ _ _ p hp with hpe | hpm
          · rw [hpe]
            refine ⟨?_, ?_⟩ <;> simp <;> omega
          · exact hinv p hpm
      · by_cases h2 : (0 : Int) < b.tokens
        · simp only [Allow, hget, gt_iff_lt, h1, if_false, h2, if_true] at hp
          rcases mem_assocSet _ _ _ p hp with hpe | hpm
          · rw [hpe]
            refine ⟨?_, ?_⟩ <;> simp <;> omega
          · exact hinv p hpm
        · simp only [Allow, hget, gt_iff_lt, h1, if_false, h2] at hp
          rcases mem_assocSet _ _ _ p hp with hpe | hpm
          · rw [hpe]
            exact ⟨hb0, hb1⟩
          · exact hinv p hpm
  | none =>
      have hfresh := allow_fresh rl identifier now hget
      by_cases h2 : (0 : Int) < rl.requestsPerMinute
      · rw [hfresh, if_pos h2] at hp
        have hp2 : p ∈ assocSet rl.buckets identifier
            { tokens := rl.requestsPerMinute - 1, lastRefill := now } := hp
        rcases mem_assocSet _ _ _ p hp2 with hpe | hpm
        · rw [hpe]
          refine ⟨?_, ?_⟩ <;> simp <;> omega
        · exact hinv p hpm
      · rw [hfresh, if_neg h2] at hp
        have hp2 : p ∈ assocSet rl.buckets identifier
            { tokens := rl.requestsPerMinute, lastRefill := now } := hp
        rcases mem_assocSet _ _ _ p hp2 with hpe | hpm
        · rw [hpe]
          refine ⟨?_, ?_⟩ <;> simp <;> omega
        · exact hinv p hpm

/-- C8: over any sequence of `Allow` calls, every bucket's token count stays
within [0, capacity]: buckets start full at the capacity, refills are capped
at the capacity, and a token is consumed only when the count is strictly
positive (the initialization and consumption facts are the fresh-bucket and
refill conjuncts of the C7 theorem). -/
theorem tokenBucket_range_invariant (rl : RateLimiter) (calls : List (String × Nat))
    (hC : 0 ≤ rl.requestsPerMinute)
    (hinv : ∀ p ∈ rl.buckets, BucketInv rl.requestsPerMinute p.2) :
    ∀ p ∈ (allowSeq rl calls).buckets, BucketInv rl.requestsPerMinute p.2 := by
  induction calls generalizing rl with
  | nil => simpa [allowSeq] using hinv
  | cons c rest ih =>
      have h1 := allow_preserves_bucketInv rl c.1 c.2 hC hinv
      have hrpm := allow_requestsPerMinute rl c.1 c.2
      have h2 := ih (Allow rl c.1 c.2).2 (by rw [hrpm]; exact hC)
        (by rw [hrpm]; exact h1)
      rw [hrpm] at h2
      exact h2

/-- C8 witness: after a concrete two-call sequence on a capacity-5 limiter,
the one bucket reached (3 tokens left) is within [0, 5]. -/
theorem tokenBucket_range_invariant_witness :
    BucketInv 5 ({ tokens := 3, lastRefill := 0 } : TokenBucket) :=
  tokenBucket_range_invariant { requestsPerMinute := 5, buckets := [] }
    [("a", 0), ("a", 0)] (by decide) (by simp)
    ("a", { tokens := 3, lastRefill := 0 }) (by decide)

/-! ## Pipeline coordinator lemmas (towards C3, C4, C10) -/

theorem processLanguage_terminal (env : LangEnv)
    (jobID originalText sourceLanguage targetLanguage videoPath : String)
    (videoDuration : Int) (outputBucket : String) :
    IsTerminal (processLanguage env jobID originalText sourceLanguage targetLanguage
      videoPath videoDuration outputBucket).status := by
  unfold processLanguage
  repeat' split
  all_goals simp [IsTerminal]

theorem updateJobErrorMutator_status (msg : String) (now : Nat) (s : StatusResponse) :
    (updateJobErrorMutator msg now s).status = TranslationStatus.failed := by
  simp only [updateJobErrorMutator]
  split <;> rfl

theorem updateJobErrorMutator_results_of_ne (msg : String) (now : Nat) (s : StatusResponse)
    (h : s.results ≠ []) :
    (updateJobErrorMutator msg now s).results = s.results := by
  simp [updateJobErrorMutator, h]

theorem updateJobErrorMutator_results_of_empty (msg : String) (now : Nat) (s : StatusResponse)
    (h : s.results = []) :
    (updateJobErrorMutator msg now s).results
      = [("error", { status := .failed, error := msg })] := by
  simp [updateJobErrorMutator, h]

theorem markCancelled_status : ∀ (langs : List String) (now : Nat) (s : StatusResponse),
    (markCancelled langs now s).status = s.status := by
  intro langs
  induction langs with
  | nil => intro now s; rfl
  | cons lang rest ih =>
      intro now s
      cases hx : assocGet s.results lang with
      | some r =>
          simp only [markCancelled, hx]
          exact ih now s
      | none =>
          simp only [markCancelled, hx]
          rw [ih]
          rfl

theorem markCancelled_get_some : ∀ (langs : List String) (now : Nat) (s : StatusResponse)
    (l : String) (r : LanguageResult), assocGet s.results l = some r →
    assocGet (markCancelled langs now s).results l = some r := by
  intro langs
  induction langs with
  | nil => intro now s l r h; exact h
  | cons lang rest ih =>
      intro now s l r h
      cases hx : assocGet s.results lang with
      | some r2 =>
          simp only [markCancelled, hx]
          exact ih now s l r h
      | none =>
          simp only [markCancelled, hx]
          apply ih
          by_cases hl : lang = l
          · subst hl
            rw [h] at hx
            cases hx
          · exact (assocGet_assocSet_ne s.results lang l _ hl).trans h

theorem markCancelled_get_marked : ∀ (langs : List String) (now : Nat) (s : StatusResponse)
    (l : String), assocGet s.results l = none → l ∈ langs →
    assocGet (markCancelled langs now s).results l = some cancelEntry := by
  intro langs
  induction langs with
  | nil => intro now s l _ hmem; cases hmem
  | cons lang rest ih =>
      intro now s l h hmem
      by_cases hl : lang = l
      · subst hl
        simp only [markCancelled, h]
        exact markCancelled_get_some rest now _ lang cancelEntry
          (assocGet_assocSet_self s.results lang cancelEntry)
      · cases hx : assocGet s.results lang with
        | some r2 =>
            simp only [markCancelled, hx]
            refine ih now s l h ?_
            rcases List.mem_cons.1 hmem with h2 | h2
            · exact absurd h2.symm hl
            · exact h2
        | none =>
            simp only [markCancelled, hx]
            refine ih now _ l ?_ ?_
            · exact (assocGet_assocSet_ne s.results lang l _ hl).trans h
            · rcases List.mem_cons.1 hmem with h2 | h2
              · exact absurd h2.symm hl
              · exact h2

theorem markCancelled_mem_keys : ∀ (langs : List String) (now : Nat) (s : StatusResponse)
    (l : String),
    l ∈ assocKeys (markCancelled langs now s).results ↔
      (l ∈ assocKeys s.results ∨ l ∈ langs) := by
  intro langs
  induction langs with
  | nil => intro now s l; simp [markCancelled]
  | cons lang rest ih =>
      intro now s l
      cases hx : assocGet s.results lang with
      | some r =>
          simp only [markCancelled, hx]
          rw [ih, List.mem_cons]
          have hmemk : lang ∈ assocKeys s.results := by
            rw [← assocGet_isSome_iff_mem_keys, hx]
            rfl
          constructor
          · rintro (h | h)
            · exact Or.inl h
            · exact Or.inr (Or.inr h)
          · rintro (h | h | h)
            · exact Or.inl h
            · refine Or.inl ?_
              rw [h]
              exact hmemk
            · exact Or.inr h
      | none =>
          simp only [markCancelled, hx]
          rw [ih]
          have hres : (cancelMarkMutator lang now s).results
              = assocSet s.results lang cancelEntry := rfl
          rw [hres, List.mem_cons]
          rw [mem_assocKeys_assocSet]
          tauto

theorem markCancelled_entries : ∀ (langs : List String) (now : Nat) (s : StatusResponse)
    (p : String × LanguageResult), p ∈ (markCancelled langs now s).results →
    p ∈ s.results ∨ p.2 = cancelEntry := by
  intro langs
  induction langs with
  | nil => intro now s p h; exact Or.inl h
  | cons lang rest ih =>
      intro now s p h
      cases hx : assocGet s.results lang with
      | some r =>
          simp only [markCancelled, hx] at h
          exact ih now s p h
      | none =>
          simp only [markCancelled, hx] at h
          rcases ih now _ p h with h2 | h2
          · rcases mem_assocSet s.results lang cancelEntry p h2 with h3 | h3
            · right
              rw [h3]
            · exact Or.inl h3
          · exact Or.inr h2

theorem markCancelled_nodup : ∀ (langs : List String) (now : Nat) (s : StatusResponse),
    (assocKeys s.results).Nodup →
    (assocKeys (markCancelled langs now s).results).Nodup := by
  intro langs
  induction langs with
  | nil => intro now s h; exact h
  | cons lang rest ih =>
      intro now s h
      cases hx : assocGet s.results lang with
      | some r =>
          simp only [markCancelled, hx]
          exact ih now s h
      | none =>
          simp only [markCancelled, hx]
          exact ih now _ (nodup_assocKeys_assocSet s.results lang cancelEntry h)

theorem fanOutLoop_noFire (env : ProcEnv) (req : TranslateRequest) (pre : PreprocessOk)
    (jobID outputBucket : String) (now : Nat) :
    ∀ (langs : List String) (i : Nat) (s : StatusResponse),
      (∀ k e, env.cancelAtLoop = some (k, e) → i + langs.length ≤ k) →
      (fanOutLoop env req pre jobID outputBucket now langs i s).status = s.status ∧
      (∀ p ∈ (fanOutLoop env req pre jobID outputBucket now langs i s).results,
        p ∈ s.results ∨ IsTerminal p.2.status) ∧
      (∀ l, l ∈ assocKeys (fanOutLoop env req pre jobID outputBucket now langs i s).results ↔
        (l ∈ assocKeys s.results ∨ l ∈ langs)) ∧
      ((assocKeys s.results).Nodup →
        (assocKeys (fanOutLoop env req pre jobID outputBucket now langs i s).results).Nodup) := by
  intro langs
  induction langs with
  | nil =>
      intro i s _
      refine ⟨rfl, ?_, ?_, ?_⟩
      · intro p hp; exact Or.inl hp
      · intro l; simp [fanOutLoop]
      · intro h; exact h
  | cons lang rest ih =>
      intro i s hnf
      have hstep : fanOutLoop env req pre jobID outputBucket now (lang :: rest) i s
          = fanOutLoop env req pre jobID outputBucket now rest (i + 1)
              (resultWriteMutator lang
                (processLanguage (env.langEnv i) jobID pre.originalText
                  pre.sourceLanguage lang pre.videoPath pre.videoDuration outputBucket)
                now s) := by
        cases hc : env.cancelAtLoop with
        | none => simp [fanOutLoop, hc]
        | some ke =>
            obtain ⟨k, e⟩ := ke
            have hk := hnf k e hc
            have hki : ¬ k ≤ i := by
              simp only [List.length_cons] at hk
              omega
            simp [fanOutLoop, hc, hki]
      have hnf2 : ∀ k e, env.cancelAtLoop = some (k, e) → (i + 1) + rest.length ≤ k := by
        intro k e hc
        have := hnf k e hc
        simp only [List.length_cons] at this
        omega
      obtain ⟨ihst, ihent, ihkeys, ihnd⟩ := ih (i + 1)
        (resultWriteMutator lang
          (processLanguage (env.langEnv i) jobID pre.originalText
            pre.sourceLanguage lang pre.videoPath pre.videoDuration outputBucket)
          now s) hnf2
      have hres : (resultWriteMutator lang
          (processLanguage (env.langEnv i) jobID pre.originalText
            pre.sourceLanguage lang pre.videoPath pre.videoDuration outputBucket)
          now s).results
          = assocSet s.results lang
              (processLanguage (env.langEnv i) jobID pre.originalText
                pre.sourceLanguage lang pre.videoPath pre.videoDuration outputBucket) := rfl
      refine ⟨?_, ?_, ?_, ?_⟩
      · rw [hstep, ihst]; rfl
      · intro p hp
        rw [hstep] at hp
        rcases ihent p hp with h2 | h2
        · rw [hres] at h2
          rcases mem_assocSet _ _ _ p h2 with h3 | h3
          · right
            rw [h3]
            exact processLanguage_terminal (env.langEnv i) jobID pre.originalText
              pre.sourceLanguage lang pre.videoPath pre.videoDuration outputBucket
          · exact Or.inl h3
        · exact Or.inr h2
      · intro l
        rw [hstep, ihkeys l, hres, mem_assocKeys_assocSet, List.mem_cons]
        tauto
      · intro hnd
        rw [hstep]
        refine ihnd ?_
        rw [hres]
        exact nodup_assocKeys_assocSet s.results lang _ hnd

theorem fanOutLoop_fire (env : ProcEnv) (req : TranslateRequest) (pre : PreprocessOk)
    (jobID outputBucket : String) (now : Nat) (k : Nat) (e : String)
    (hc : env.cancelAtLoop = some (k, e)) (hall : req.targetLanguages ≠ []) :
    ∀ (langs : List String) (i : Nat) (s : StatusResponse),
      i ≤ k → k < i + langs.length →
      (∀ l ∈ langs, assocGet s.results l = none) →
      langs.Nodup →
      (∀ l ∈ langs, l ∈ req.targetLanguages) →
      (fanOutLoop env req pre jobID outputBucket now langs i s).status
          = TranslationStatus.failed ∧
      (∀ p ∈ (fanOutLoop env req pre jobID outputBucket now langs i s).results,
        p ∈ s.results ∨ IsTerminal p.2.status) ∧
      (∀ l, l ∈ assocKeys (fanOutLoop env req pre jobID outputBucket now langs i s).results ↔
        (l ∈ assocKeys s.results ∨ l ∈ req.targetLanguages)) ∧
      ((assocKeys s.results).Nodup →
        (assocKeys (fanOutLoop env req pre jobID outputBucket now langs i s).results).Nodup) ∧
      (∀ l ∈ langs.drop (k - i),
        assocGet (fanOutLoop env req pre jobID outputBucket now langs i s).results l
          = some cancelEntry) := by
  intro langs
  induction langs with
  | nil =>
      intro i s _ hk _ _ _
      simp only [List.length_nil, Nat.add_zero] at hk
      omega
  | cons lang rest ih =>
      intro i s hik hk hkeys hnd hsub
      by_cases hfire : k ≤ i
      · -- the pre-spawn check fires at this iteration
        have hstep : fanOutLoop env req pre jobID outputBucket now (lang :: rest) i s
            = updateJobErrorMutator ("processing cancelled: " ++ e) now
                (markCancelled req.targetLanguages now s) := by
          simp [fanOutLoop, hc, hfire]
        have hki : k = i := by omega
        -- the marked state
        obtain ⟨l0, hl0⟩ := List.exists_mem_of_ne_nil req.targetLanguages hall
        have hl0keys : l0 ∈ assocKeys (markCancelled req.targetLanguages now s).results := by
          rw [markCancelled_mem_keys]
          exact Or.inr hl0
        have hmne : (markCancelled req.targetLanguages now s).results ≠ [] := by
          intro h0
          rw [h0] at hl0keys
          simp [assocKeys] at hl0keys
        have hresu : (updateJobErrorMutator ("processing cancelled: " ++ e) now
            (markCancelled req.targetLanguages now s)).results
            = (markCancelled req.targetLanguages now s).results :=
          updateJobErrorMutator_results_of_ne _ now _ hmne
        refine ⟨?_, ?_, ?_, ?_, ?_⟩
        · rw [hstep]
          exact updateJobErrorMutator_status _ now _
        · intro p hp
          rw [hstep, hresu] at hp
          rcases markCancelled_entries req.targetLanguages now s p hp with h2 | h2
          · exact Or.inl h2
          · right
            rw [h2]
            exact Or.inr rfl
        · intro l
          rw [hstep, assocKeys, hresu, ← assocKeys]
          exact markCancelled_mem_keys req.targetLanguages now s l
        · intro hnd2
          rw [hstep, assocKeys, hresu, ← assocKeys]
          exact markCancelled_nodup req.targetLanguages now s hnd2
        · intro l hl
          have hl2 : l ∈ lang :: rest := by
            have := List.drop_subset (k - i) (lang :: rest)
            exact this hl
          rw [hstep]
          have hget : assocGet (markCancelled req.targetLanguages now s).results l
              = some cancelEntry :=
            markCancelled_get_marked req.targetLanguages now s l (hkeys l hl2) (hsub l hl2)
          calc assocGet (updateJobErrorMutator ("processing cancelled: " ++ e) now
                (markCancelled req.targetLanguages now s)).results l
              = assocGet (markCancelled req.targetLanguages now s).results l := by rw [hresu]
            _ = some cancelEntry := hget
      · -- no fire yet: k > i, run this language and recurse
        have hstep : fanOutLoop env req pre jobID outputBucket now (lang :: rest) i s
            = fanOutLoop env req pre jobID outputBucket now rest (i + 1)
                (resultWriteMutator lang
                  (processLanguage (env.langEnv i) jobID pre.originalText
                    pre.sourceLanguage lang pre.videoPath pre.videoDuration outputBucket)
                  now s) := by
          simp [fanOutLoop, hc, hfire]
        have hres : (resultWriteMutator lang
            (processLanguage (env.langEnv i) jobID pre.originalText
              pre.sourceLanguage lang pre.videoPath pre.videoDuration outputBucket)
            now s).results
            = assocSet s.results lang
                (processLanguage (env.langEnv i) jobID pre.originalText
                  pre.sourceLanguage lang pre.videoPath pre.videoDuration outputBucket) := rfl
        have hnd2 : rest.Nodup := (List.nodup_cons.1 hnd).2
        have hlangmem : lang ∉ rest := (List.nodup_cons.1 hnd).1
        have hkeys2 : ∀ l ∈ rest, assocGet (resultWriteMutator lang
            (processLanguage (env.langEnv i) jobID pre.originalText
              pre.sourceLanguage lang pre.videoPath pre.videoDuration outputBucket)
            now s).results l = none := by
          intro l hl
          rw [hres]
          have hne2 : lang ≠ l := by
            intro h2
            rw [h2] at hlangmem
            exact hlangmem hl
          rw [assocGet_assocSet_ne _ _ _ _ hne2]
          exact hkeys l (List.mem_cons_of_mem _ hl)
        have hsub2 : ∀ l ∈ rest, l ∈ req.targetLanguages := by
          intro l hl
          exact hsub l (List.mem_cons_of_mem _ hl)
        obtain ⟨ihst, ihent, ihkeys, ihnd, ihdrop⟩ := ih (i + 1)
          (resultWriteMutator lang
            (processLanguage (env.langEnv i) jobID pre.originalText
              pre.sourceLanguage lang pre.videoPath pre.videoDuration outputBucket)
            now s)
          (by omega)
          (by simp only [List.length_cons] at hk; omega)
          hkeys2 hnd2 hsub2
        refine ⟨?_, ?_, ?_, ?_, ?_⟩
        · rw [hstep]; exact ihst
        · intro p hp
          rw [hstep] at hp
          rcases ihent p hp with h2 | h2
          · rw [hres] at h2
            rcases mem_assocSet _ _ _ p h2 with h3 | h3
            · right
              rw [h3]
              exact processLanguage_terminal (env.langEnv i) jobID pre.originalText
                pre.sourceLanguage lang pre.videoPath pre.videoDuration outputBucket
            · exact Or.inl h3
          · exact Or.inr h2
        · intro l
          rw [hstep, ihkeys l, hres, mem_assocKeys_assocSet]
          have hlmem : lang ∈ req.targetLanguages := hsub lang (List.mem_cons_self lang rest)
          constructor
          · rintro ((h2 | h2) | h2)
            · right
              rw [h2]
              exact hlmem
            · exact Or.inl h2
            · exact Or.inr h2
          · rintro (h2 | h2)
            · exact Or.inl (Or.inr h2)
            · exact Or.inr h2
        · intro hnd3
          rw [hstep]
          refine ihnd ?_
          rw [hres]
          exact nodup_assocKeys_assocSet s.results lang _ hnd3
        · intro l hl
          have hdrop : (lang :: rest).drop (k - i) = rest.drop (k - (i + 1)) := by
            have h5 : k - i = (k - (i + 1)) + 1 := by omega
            rw [h5]
            rfl
          rw [hstep]
          refine ihdrop l ?_
          rw [hdrop] at hl
          exact hl

/-- C10: when shared preprocessing fails (any early return, including the
empty-transcription check), `processTranslation` runs `updateJobError` with
the failure message and returns before any per-language processing: the job
is `failed`, and if the result map was empty exactly one synthetic "error"
entry carrying the message is inserted; a non-empty map is left as it was. -/
theorem preprocess_failure_shortCircuits (env : ProcEnv) (req : TranslateRequest)
    (jobID : String) (maxD : Int) (outputBucket : String) (now : Nat)
    (s0 : StatusResponse) (msg : String)
    (hfail : preprocess env req maxD = Except.error msg) :
    processTranslation env req jobID maxD outputBucket now s0
        = updateJobErrorMutator msg now s0 ∧
    (processTranslation env req jobID maxD outputBucket now s0).status
        = TranslationStatus.failed ∧
    (s0.results = [] →
      (processTranslation env req jobID maxD outputBucket now s0).results
        = [("error", { status := .failed, error := msg })]) ∧
    (s0.results ≠ [] →
      (processTranslation env req jobID maxD outputBucket now s0).results
        = s0.results) := by
  have h1 : processTranslation env req jobID maxD outputBucket now s0
      = updateJobErrorMutator msg now s0 := by
    simp [processTranslation, hfail]
  refine ⟨h1, ?_, ?_, ?_⟩
  · rw [h1]
    exact updateJobErrorMutator_status msg now s0
  · intro h
    rw [h1]
    exact updateJobErrorMutator_results_of_empty msg now s0 h
  · intro h
    rw [h1]
    exact updateJobErrorMutator_results_of_ne msg now s0 h

/-- C10 witness: the default environment transcribes to empty text, which is
the job-fatal empty-transcription condition; the job ends `failed` with the
single synthetic "error" entry. -/
theorem preprocess_failure_shortCircuits_witness :
    preprocess {} { videoURL := "gs://b/v.mp4", targetLanguages := ["en"] } 100
        = Except.error "transcription returned empty text" ∧
    (processTranslation {} { videoURL := "gs://b/v.mp4", targetLanguages := ["en"] }
        "job" 100 "out" 7
        { jobID := "job", status := .processing, results := [] }).status
        = TranslationStatus.failed ∧
    (processTranslation {} { videoURL := "gs://b/v.mp4", targetLanguages := ["en"] }
        "job" 100 "out" 7
        { jobID := "job", status := .processing, results := [] }).results
        = [("error", { status := .failed, error := "transcription returned empty text" })] := by
  have hfail : preprocess {} { videoURL := "gs://b/v.mp4", targetLanguages := ["en"] } 100
      = Except.error "transcription returned empty text" := rfl
  have h := preprocess_failure_shortCircuits {}
    { videoURL := "gs://b/v.mp4", targetLanguages := ["en"] } "job" 100 "out" 7
    { jobID := "job", status := .processing, results := [] }
    "transcription returned empty text" hfail
  exact ⟨hfail, h.2.1, h.2.2.1 rfl⟩

/-- C3: for a job accepted with distinct target languages whose shared
preprocessing succeeds, once the fan-out/fan-in in `processTranslation`
finishes the result map holds exactly one entry per requested target language
— its keys are a permutation of the request's language list — and every entry
is terminal (`completed` or `failed`). -/
theorem fanIn_results_complete (env : ProcEnv) (req : TranslateRequest) (jobID : String)
    (maxD : Int) (outputBucket : String) (now : Nat) (s0 : StatusResponse)
    (pre : PreprocessOk)
    (hpre : preprocess env req maxD = Except.ok pre)
    (hempty : s0.results = [])
    (hnodup : req.targetLanguages.Nodup)
    (hne : req.targetLanguages ≠ []) :
    (assocKeys (processTranslation env req jobID maxD outputBucket now s0).results).Perm
        req.targetLanguages ∧
    (processTranslation env req jobID maxD outputBucket now s0).results.length
        = req.targetLanguages.length ∧
    (∀ p ∈ (processTranslation env req jobID maxD outputBucket now s0).results,
      IsTerminal p.2.status) := by
  have hkeys0 : assocKeys s0.results = [] := by rw [hempty]; rfl
  have hmain : (∀ l, l ∈ assocKeys (processTranslation env req jobID maxD outputBucket
        now s0).results ↔ l ∈ req.targetLanguages) ∧
      (assocKeys (processTranslation env req jobID maxD outputBucket now s0).results).Nodup ∧
      (∀ p ∈ (processTranslation env req jobID maxD outputBucket now s0).results,
        IsTerminal p.2.status) := by
    by_cases hlc : loopCancelled env req = true
    · obtain ⟨k, e, hc, hkN⟩ : ∃ k e, env.cancelAtLoop = some (k, e) ∧
          k < req.targetLanguages.length := by
        unfold loopCancelled at hlc
        cases henv : env.cancelAtLoop with
        | none => rw [henv] at hlc; cases hlc
        | some ke =>
            obtain ⟨k, e⟩ := ke
            rw [henv] at hlc
            exact ⟨k, e, rfl, of_decide_eq_true hlc⟩
      obtain ⟨hst, hent, hkeysiff, hnd, hdrop⟩ :=
        fanOutLoop_fire env req pre jobID outputBucket now k e hc hne
          req.targetLanguages 0 s0 (Nat.zero_le k) (by simpa using hkN)
          (by intro l hl; rw [hempty]; rfl) hnodup (fun l hl => hl)
      have hfinal : processTranslation env req jobID maxD outputBucket now s0
          = fanOutLoop env req pre jobID outputBucket now req.targetLanguages 0 s0 := by
        simp [processTranslation, hpre, hlc]
      refine ⟨?_, ?_, ?_⟩
      · intro l
        rw [hfinal, hkeysiff l, hkeys0]
        simp
      · rw [hfinal]
        refine hnd ?_
        rw [hkeys0]
        exact List.nodup_nil
      · intro p hp
        rw [hfinal] at hp
        rcases hent p hp with h2 | h2
        · rw [hempty] at h2
          cases h2
        · exact h2
    · have hlcf : loopCancelled env req = false := by
        rcases Bool.eq_false_or_eq_true (loopCancelled env req) with h | h
        · exact absurd h hlc
        · exact h
      have hnf : ∀ k e, env.cancelAtLoop = some (k, e) →
          0 + req.targetLanguages.length ≤ k := by
        intro k e hcc
        unfold loopCancelled at hlcf
        rw [hcc] at hlcf
        have := of_decide_eq_false hlcf
        omega
      obtain ⟨hst, hent, hkeysiff, hnd⟩ := fanOutLoop_noFire env req pre jobID outputBucket
        now req.targetLanguages 0 s0 hnf
      have hloopne : (fanOutLoop env req pre jobID outputBucket now
          req.targetLanguages 0 s0).results ≠ [] := by
        obtain ⟨l0, hl0⟩ := List.exists_mem_of_ne_nil req.targetLanguages hne
        have hmem := (hkeysiff l0).2 (Or.inr hl0)
        intro h0
        rw [h0] at hmem
        simp [assocKeys] at hmem
      have hresfinal : (processTranslation env req jobID maxD outputBucket now s0).results
          = (fanOutLoop env req pre jobID outputBucket now req.targetLanguages 0 s0).results := by
        cases hwait : env.cancelAfterWait with
        | some e2 =>
            have h6 : processTranslation env req jobID maxD outputBucket now s0
                = updateJobErrorMutator ("processing cancelled: " ++ e2) now
                    (fanOutLoop env req pre jobID outputBucket now req.targetLanguages 0 s0) := by
              simp [processTranslation, hpre, hlcf, hwait]
            rw [h6]
            exact updateJobErrorMutator_results_of_ne _ now _ hloopne
        | none =>
            have h6 : processTranslation env req jobID maxD outputBucket now s0
                = aggregateMutator now
                    (fanOutLoop env req pre jobID outputBucket now req.targetLanguages 0 s0) := by
              simp [processTranslation, hpre, hlcf, hwait]
            rw [h6]
            exact aggregateMutator_results now _
      refine ⟨?_, ?_, ?_⟩
      · intro l
        rw [assocKeys, hresfinal, ← assocKeys, hkeysiff l, hkeys0]
        simp
      · rw [assocKeys, hresfinal, ← assocKeys]
        refine hnd ?_
        rw [hkeys0]
        exact List.nodup_nil
      · intro p hp
        rw [hresfinal] at hp
        rcases hent p hp with h2 | h2
        · rw [hempty] at h2
          cases h2
        · exact h2
  obtain ⟨hF1, hF2, hF3⟩ := hmain
  have hperm : (assocKeys (processTranslation env req jobID maxD outputBucket
      now s0).results).Perm req.targetLanguages :=
    (List.perm_ext_iff_of_nodup hF2 hnodup).2 hF1
  refine ⟨hperm, ?_, hF3⟩
  have hlen := hperm.length_eq
  simp only [assocKeys, List.length_map] at hlen
  exact hlen

/-- C3 witness: two distinct languages, preprocessing succeeds on a concrete
environment; the final map's keys are exactly the two languages and both
entries are terminal. -/
theorem fanIn_results_complete_witness :
    (assocKeys (processTranslation
        { transcribeRes := Except.ok { text := "hello", language := "fr" } }
        { videoURL := "gs://b/v.mp4", targetLanguages := ["en", "ar"] }
        "job" 100 "out" 7
        { jobID := "job", status := .processing, results := [] }).results).Perm
      ["en", "ar"] ∧
    (processTranslation
        { transcribeRes := Except.ok { text := "hello", language := "fr" } }
        { videoURL := "gs://b/v.mp4", targetLanguages := ["en", "ar"] }
        "job" 100 "out" 7
        { jobID := "job", status := .processing, results := [] }).results.length = 2 ∧
    (∀ p ∈ (processTranslation
        { transcribeRes := Except.ok { text := "hello", language := "fr" } }
        { videoURL := "gs://b/v.mp4", targetLanguages := ["en", "ar"] }
        "job" 100 "out" 7
        { jobID := "job", status := .processing, results := [] }).results,
      IsTerminal p.2.status) :=
  fanIn_results_complete
    { transcribeRes := Except.ok { text := "hello", language := "fr" } }
    { videoURL := "gs://b/v.mp4", targetLanguages := ["en", "ar"] }
    "job" 100 "out" 7
    { jobID := "job", status := .processing, results := [] }
    { videoPath := "", videoDuration := 0, originalText := "hello", sourceLanguage := "fr" }
    rfl rfl (by decide) (by decide)

/-- C4: if the job's execution context is cancelled before fan-in completes —
either the pre-spawn loop check fires at some index, or the post-wait check
observes cancellation — the job's overall status ends `failed` (terminal, not
`processing`), every result entry is terminal, and when the loop check fired
at index k every language from index k on carries the `failed` result whose
error text is "processing cancelled". -/
theorem cancellation_reaches_terminal (env : ProcEnv) (req : TranslateRequest)
    (jobID : String) (maxD : Int) (outputBucket : String) (now : Nat)
    (s0 : StatusResponse) (pre : PreprocessOk)
    (hpre : preprocess env req maxD = Except.ok pre)
    (hempty : s0.results = [])
    (hnodup : req.targetLanguages.Nodup)
    (hne : req.targetLanguages ≠ [])
    (hcancel : (∃ k e, env.cancelAtLoop = some (k, e) ∧ k < req.targetLanguages.length) ∨
      env.cancelAfterWait.isSome = true) :
    (processTranslation env req jobID maxD outputBucket now s0).status
        = TranslationStatus.failed ∧
    (∀ p ∈ (processTranslation env req jobID maxD outputBucket now s0).results,
      IsTerminal p.2.status) ∧
    (∀ k e, env.cancelAtLoop = some (k, e) → k < req.targetLanguages.length →
      ∀ l ∈ req.targetLanguages.drop k,
        assocGet (processTranslation env req jobID maxD outputBucket now s0).results l
          = some cancelEntry) := by
  by_cases hlc : loopCancelled env req = true
  · obtain ⟨k, e, hc, hkN⟩ : ∃ k e, env.cancelAtLoop = some (k, e) ∧
        k < req.targetLanguages.length := by
      unfold loopCancelled at hlc
      cases henv : env.cancelAtLoop with
      | none => rw [henv] at hlc; cases hlc
      | some ke =>
          obtain ⟨k, e⟩ := ke
          rw [henv] at hlc
          exact ⟨k, e, rfl, of_decide_eq_true hlc⟩
    obtain ⟨hst, hent, hkeysiff, hnd, hdrop⟩ :=
      fanOutLoop_fire env req pre jobID outputBucket now k e hc hne
        req.targetLanguages 0 s0 (Nat.zero_le k) (by simpa using hkN)
        (by intro l hl; rw [hempty]; rfl) hnodup (fun l hl => hl)
    have hfinal : processTranslation env req jobID maxD outputBucket now s0
        = fanOutLoop env req pre jobID outputBucket now req.targetLanguages 0 s0 := by
      simp [processTranslation, hpre, hlc]
    refine ⟨?_, ?_, ?_⟩
    · rw [hfinal]
      exact hst
    · intro p hp
      rw [hfinal] at hp
      rcases hent p hp with h2 | h2
      · rw [hempty] at h2
        cases h2
      · exact h2
    · intro k2 e2 hc2 _ l hl
      have h7 : (k, e) = (k2, e2) := Option.some.inj (hc.symm.trans hc2)
      injection h7 with h8 h9
      subst h8
      subst h9
      rw [hfinal]
      simp only [Nat.sub_zero] at hdrop
      exact hdrop l hl
  · have hlcf : loopCancelled env req = false := by
      rcases Bool.eq_false_or_eq_true (loopCancelled env req) with h | h
      · exact absurd h hlc
      · exact h
    have hnf : ∀ k e, env.cancelAtLoop = some (k, e) →
        0 + req.targetLanguages.length ≤ k := by
      intro k e hcc
      unfold loopCancelled at hlcf
      rw [hcc] at hlcf
      have := of_decide_eq_false hlcf
      omega
    have hwaitSome : env.cancelAfterWait.isSome = true := by
      rcases hcancel with ⟨k, e, hc, hkN⟩ | h
      · exfalso
        have := hnf k e hc
        omega
      · exact h
    obtain ⟨e2, hwait⟩ := Option.isSome_iff_exists.1 hwaitSome
    obtain ⟨hst, hent, hkeysiff, hnd⟩ := fanOutLoop_noFire env req pre jobID outputBucket
      now req.targetLanguages 0 s0 hnf
    have hloopne : (fanOutLoop env req pre jobID outputBucket now
        req.targetLanguages 0 s0).results ≠ [] := by
      obtain ⟨l0, hl0⟩ := List.exists_mem_of_ne_nil req.targetLanguages hne
      have hmem := (hkeysiff l0).2 (Or.inr hl0)
      intro h0
      rw [h0] at hmem
      simp [assocKeys] at hmem
    have h6 : processTranslation env req jobID maxD outputBucket now s0
        = updateJobErrorMutator ("processing cancelled: " ++ e2) now
            (fanOutLoop env req pre jobID outputBucket now req.targetLanguages 0 s0) := by
      simp [processTranslation, hpre, hlcf, hwait]
    refine ⟨?_, ?_, ?_⟩
    · rw [h6]
      exact updateJobErrorMutator_status _ now _
    · intro p hp
      rw [h6, updateJobErrorMutator_results_of_ne _ now _ hloopne] at hp
      rcases hent p hp with h2 | h2
      · rw [hempty] at h2
        cases h2
      · exact h2
    · intro k2 e3 hc2 hkN2 l hl
      exfalso
      have := hnf k2 e3 hc2
      omega

/-- C4 witness: cancellation observed at loop index 0 with two languages; the
job ends `failed` and both languages carry the cancellation-marked result. -/
theorem cancellation_reaches_terminal_witness :
    (processTranslation
        { transcribeRes := Except.ok { text := "hello", language := "fr" },
          cancelAtLoop := some (0, "context canceled") }
        { videoURL := "gs://b/v.mp4", targetLanguages := ["en", "ar"] }
        "job" 100 "out" 7
        { jobID := "job", status := .processing, results := [] }).status
        = TranslationStatus.failed ∧
    (∀ p ∈ (processTranslation
        { transcribeRes := Except.ok { text := "hello", language := "fr" },
          cancelAtLoop := some (0, "context canceled") }
        { videoURL := "gs://b/v.mp4", targetLanguages := ["en", "ar"] }
        "job" 100 "out" 7
        { jobID := "job", status := .processing, results := [] }).results,
      IsTerminal p.2.status) ∧
    (∀ k e, ({ transcribeRes := Except.ok { text := "hello", language := "fr" },
               cancelAtLoop := some (0, "context canceled") } : ProcEnv).cancelAtLoop
          = some (k, e) →
      k < (["en", "ar"] : List String).length →
      ∀ l ∈ (["en", "ar"] : List String).drop k,
        assocGet (processTranslation
          { transcribeRes := Except.ok { text := "hello", language := "fr" },
            cancelAtLoop := some (0, "context canceled") }
          { videoURL := "gs://b/v.mp4", targetLanguages := ["en", "ar"] }
          "job" 100 "out" 7
          { jobID := "job", status := .processing, results := [] }).results l
          = some cancelEntry) :=
  cancellation_reaches_terminal
    { transcribeRes := Except.ok { text := "hello", language := "fr" },
      cancelAtLoop := some (0, "context canceled") }
    { videoURL := "gs://b/v.mp4", targetLanguages := ["en", "ar"] }
    "job" 100 "out" 7
    { jobID := "job", status := .processing, results := [] }
    { videoPath := "", videoDuration := 0, originalText := "hello", sourceLanguage := "fr" }
    rfl rfl (by decide) (by decide)
    (Or.inl ⟨0, "context canceled", rfl, by decide⟩)
